import Mathlib

/-
Verification development for the NCAA scraper's failed-game ledger
(ncaa_scraper/failed_games.py) and CSV reconciliation engine
(ncaa_scraper/storage/csv_handler.py).

The ledger file is a JSON object keyed by ISO date, then by game link,
mapping to a list of failure records.  Python dicts preserve insertion
order and have unique keys, so they are embedded as association lists
together with a well-formedness predicate stating key uniqueness.
File-system effects are embedded by an explicit file-state type:
a ledger file is missing, unparsable, or holds a parsed ledger value.
-/

set_option maxHeartbeats 1000000

namespace NCAA

/-- One failed attempt for a (game, division, gender) on a date, as stored in
the ledger JSON.  `retry_count` is an `Option` because a record read from disk
may lack the key; the code reads it with `.get('retry_count', 0)`. -/
structure Entry where
  division : String
  gender : String
  error_type : String
  error_message : String
  retry_count : Option Nat
  deriving DecidableEq

/-- The per-date bucket: game link to its list of failure records. -/
abbrev Bucket := List (String × List Entry)

/-- The ledger: ISO date string to its bucket of games. -/
abbrev Ledger := List (String × Bucket)

/-- Python dict assignment `d[k] = v`: replace the value at the first
occurrence of `k`, keeping its position, or append a fresh binding. -/
def alist_set {α : Type} : List (String × α) → String → α → List (String × α)
  | [], k, v => [(k, v)]
  | (k', v') :: rest, k, v =>
    if k' == k then (k, v) :: rest else (k', v') :: alist_set rest k v

/-- Python `del d[k]`: drop the first binding of `k`. -/
def alist_erase {α : Type} : List (String × α) → String → List (String × α)
  | [], _ => []
  | (k', v') :: rest, k =>
    if k' == k then rest else (k', v') :: alist_erase rest k

/-- The record-identity test used throughout `failed_games.py`:
`entry['division'] == division and entry['gender'] == gender`. -/
def entryKeyMatches (e : Entry) (dv gd : String) : Bool :=
  e.division == dv && e.gender == gd

/-- The search-and-update loop of `save_failed_game` (lines 55-75): update the
first record matching (division, gender) in place, overwriting the error
fields and re-writing `retry_count` as its old value defaulted to 0;
if no record matches, append a fresh record with `retry_count = 0`. -/
def save_update_entries : List Entry → String → String → String → String → List Entry
  | [], dv, gd, et, em => [⟨dv, gd, et, em, some 0⟩]
  | e :: rest, dv, gd, et, em =>
    if entryKeyMatches e dv gd then
      { e with error_type := et, error_message := em,
               retry_count := some (e.retry_count.getD 0) } :: rest
    else e :: save_update_entries rest dv gd et em

/-- In-memory core of `save_failed_game`: ensure the date bucket and the game
bucket exist (new dict keys land at the end, in insertion order), then run the
search-and-update loop on the game's record list. -/
def save_core (l : Ledger) (g dk dv gd et em : String) : Ledger :=
  let l1 := if (List.lookup dk l).isSome then l else l ++ [(dk, [])]
  let games := (List.lookup dk l1).getD []
  let games1 := if (List.lookup g games).isSome then games else games ++ [(g, [])]
  let entries := (List.lookup g games1).getD []
  let entries1 := save_update_entries entries dv gd et em
  let games2 := alist_set games1 g entries1
  alist_set l1 dk games2

/-- The retry loop of `mark_game_as_retried` (lines 183-194): at the first
record matching (division, gender), either remove it (`success = true`) or
increment its `retry_count` (missing treated as 0), then stop. -/
def mark_entries : List Entry → String → String → Bool → List Entry
  | [], _, _, _ => []
  | e :: rest, dv, gd, success =>
    if entryKeyMatches e dv gd then
      if success then rest
      else { e with retry_count := some (e.retry_count.getD 0 + 1) } :: rest
    else e :: mark_entries rest dv gd success

/-- In-memory core of `mark_game_as_retried`: no-op when the date or the game
is absent; otherwise run the retry loop, delete the game entry when a
successful retry empties its record list, and delete the date entry when its
bucket ends up empty. -/
def mark_core (l : Ledger) (g dk dv gd : String) (success : Bool) : Ledger :=
  match List.lookup dk l with
  | none => l
  | some games =>
    match List.lookup g games with
    | none => l
    | some entries =>
      let found := entries.any (fun e => entryKeyMatches e dv gd)
      let entries1 := mark_entries entries dv gd success
      let games1 :=
        if success && found && entries1.isEmpty then alist_erase games g
        else alist_set games g entries1
      let l1 := alist_set l dk games1
      if ((List.lookup dk l1).getD []).isEmpty then alist_erase l1 dk else l1

/-- The on-disk state of the ledger file: absent, present but unparsable, or
present with parsed contents. -/
inductive LedgerFile
  | missing
  | corrupt
  | content (l : Ledger)
  deriving DecidableEq

/-- What `save_failed_game` sees after its tolerant load: a missing or
unparsable file is treated as an empty ledger. -/
def loadedForSave : LedgerFile → Ledger
  | .missing => []
  | .corrupt => []
  | .content l => l

/-- `save_failed_game`: tolerant load, in-memory update, unconditional
write-back (the file always exists afterwards). -/
def save_failed_game (f : LedgerFile) (g dk dv gd et em : String) : LedgerFile :=
  .content (save_core (loadedForSave f) g dk dv gd et em)

/-- `load_failed_games`: missing file or parse failure yields an empty result;
with a target date it returns a single-entry structure holding only that
date's bucket, empty when the date is absent. -/
def load_failed_games (f : LedgerFile) (target : Option String) : Ledger :=
  match f with
  | .missing => []
  | .corrupt => []
  | .content l =>
    match target with
    | none => l
    | some dk => [(dk, (List.lookup dk l).getD [])]

/-- `mark_game_as_retried` at the file level: missing file returns before any
write; a parse failure is caught before any write; otherwise the in-memory
result is written back. -/
def mark_game_as_retried (f : LedgerFile) (g dk dv gd : String) (success : Bool) :
    LedgerFile :=
  match f with
  | .missing => .missing
  | .corrupt => .corrupt
  | .content l => .content (mark_core l g dk dv gd success)

/-- `get_failed_games_for_division_gender`: the game links under the target
date holding at least one record matching (division, gender), in bucket
order, each at most once (the loop breaks at the first match per game). -/
def get_failed_games_for_division_gender (l : Ledger) (dk dv gd : String) :
    List String :=
  (((List.lookup dk l).getD []).filter
    (fun p => p.2.any (fun e => entryKeyMatches e dv gd))).map Prod.fst

/-- The record list stored in `l` for date `dk`, game `g` (empty when either
key is absent). -/
def entriesAt (l : Ledger) (dk g : String) : List Entry :=
  (List.lookup g ((List.lookup dk l).getD [])).getD []

/-- How many records for the tuple (date, game, division, gender) the ledger
holds. -/
def countRecords (l : Ledger) (dk g dv gd : String) : Nat :=
  (entriesAt l dk g).countP (fun e => entryKeyMatches e dv gd)

/-- The identity key of a record inside a bucket. -/
def entryKey (e : Entry) : String × String :=
  (e.division, e.gender)

/-- No two records of a record list share a (division, gender) key. -/
def entriesNoDupKey (es : List Entry) : Prop :=
  (es.map entryKey).Nodup

instance (es : List Entry) : Decidable (entriesNoDupKey es) := by
  unfold entriesNoDupKey
  exact inferInstance

/-- Well-formedness of a parsed ledger, matching what Python dicts guarantee
plus the spec's at-most-one-record-per-key invariant: date keys are distinct,
game keys are distinct within each date, and no record list repeats a
(division, gender) key. -/
def LedgerWF (l : Ledger) : Prop :=
  (l.map Prod.fst).Nodup ∧
    ∀ p ∈ l, (p.2.map Prod.fst).Nodup ∧ ∀ q ∈ p.2, entriesNoDupKey q.2

instance (l : Ledger) : Decidable (LedgerWF l) := by
  unfold LedgerWF
  exact inferInstance

/-- One ledger operation on a fixed (date, game, division, gender) key. -/
inductive LedgerOp
  | save (et em : String)
  | retry (success : Bool)
  deriving DecidableEq

/-- Run one operation against the ledger file. -/
def applyLedgerOp (f : LedgerFile) (g dk dv gd : String) : LedgerOp → LedgerFile
  | .save et em => save_failed_game f g dk dv gd et em
  | .retry s => mark_game_as_retried f g dk dv gd s

/-- Run a sequence of operations against the ledger file, left to right. -/
def applyLedgerOps (f : LedgerFile) (g dk dv gd : String) (ops : List LedgerOp) :
    LedgerFile :=
  ops.foldl (fun acc op => applyLedgerOp acc g dk dv gd op) f

/-- The records for the key (date, game, division, gender) visible in a
ledger file (none when the file is missing or unparsable). -/
def recordsForKey (f : LedgerFile) (dk g dv gd : String) : List Entry :=
  match f with
  | .content l => (entriesAt l dk g).filter (fun e => entryKeyMatches e dv gd)
  | _ => []

/-- Abstract per-key state: `none` when no record exists, otherwise the error
fields of the last save and the current retry count. -/
def keySpecStep (st : Option (String × String × Nat)) : LedgerOp →
    Option (String × String × Nat)
  | .save et em =>
    match st with
    | none => some (et, em, 0)
    | some (_, _, c) => some (et, em, c)
  | .retry true => none
  | .retry false =>
    match st with
    | none => none
    | some (et, em, c) => some (et, em, c + 1)

/-- Abstract per-key state after a whole operation sequence, starting from
no record. -/
def keySpecFold (ops : List LedgerOp) : Option (String × String × Nat) :=
  ops.foldl keySpecStep none

/-- The record list an abstract per-key state describes. -/
def specRecords (dv gd : String) : Option (String × String × Nat) → List Entry
  | none => []
  | some (et, em, c) => [⟨dv, gd, et, em, some c⟩]

/-- The count named by the spec: failed retries since the last successful
retry, over a whole operation sequence. -/
def failedRetriesSinceLastSuccess (ops : List LedgerOp) : Nat :=
  ops.foldl
    (fun c op =>
      match op with
      | .retry true => 0
      | .retry false => c + 1
      | .save _ _ => c) 0

/-- Representation relation for single-key operation sequences: the ledger
file states reachable from a missing file by operations on one fixed
(game, date, division, gender) key, indexed by the abstract per-key state. -/
def ReprKeyState (g dk dv gd : String) (f : LedgerFile)
    (st : Option (String × String × Nat)) : Prop :=
  match st with
  | none => f = .missing ∨ f = .content []
  | some (et, em, c) => f = .content [(dk, [(g, [⟨dv, gd, et, em, some c⟩])])]

/-- One CSV row, embedded as an association list from column name to cell
text.  A column absent from a row models a missing value (pandas NaN). -/
abbrev Row := List (String × String)

/-- The cell of row `r` at column `c`. -/
def getCell (r : Row) (c : String) : Option String :=
  List.lookup c r

/-- A parsed CSV table: its header and its rows, in file order. -/
structure Table where
  cols : List String
  rows : List Row
  deriving DecidableEq

/-- The on-disk state of a CSV file: absent, present but unparsable, or
present with parsed contents. -/
inductive CsvFile
  | missing
  | unreadable
  | table (t : Table)
  deriving DecidableEq

/-- `CSVHandler.read_csv_safely`: `None` for a missing file or a read error,
the parsed table otherwise. -/
def read_csv_safely : CsvFile → Option Table
  | .missing => none
  | .unreadable => none
  | .table t => some t

/-- `CSVHandler.game_exists_in_csv`: false for a missing file; a read error is
caught and yields false; otherwise true iff the table has a GAMEID column
containing the game id. -/
def game_exists_in_csv (f : CsvFile) (game_id : String) : Bool :=
  match f with
  | .missing => false
  | .unreadable => false
  | .table t =>
    if t.cols.contains "GAMEID" then
      (t.rows.map (fun r => getCell r "GAMEID")).contains (some game_id)
    else false

/-- `CSVHandler.update_duplicate_flag`: returns the success flag and the
resulting file state.  A missing or unreadable file, or a table without a
GAMELINK column, yields false with the file untouched; otherwise the
DUPLICATE_ACROSS_DIVISIONS column is added with value False when absent, the
rows whose GAMELINK equals the game link get the requested value, and the
whole table is rewritten. -/
def update_duplicate_flag (f : CsvFile) (game_link : String) (dup : Bool) :
    Bool × CsvFile :=
  match f with
  | .missing => (false, .missing)
  | .unreadable => (false, .unreadable)
  | .table t =>
    if t.cols.contains "GAMELINK" then
      let t1 : Table :=
        if t.cols.contains "DUPLICATE_ACROSS_DIVISIONS" then t
        else ⟨t.cols ++ ["DUPLICATE_ACROSS_DIVISIONS"],
              t.rows.map (fun r => r ++ [("DUPLICATE_ACROSS_DIVISIONS", "False")])⟩
      let rows2 := t1.rows.map (fun r =>
        if getCell r "GAMELINK" == some game_link then
          alist_set r "DUPLICATE_ACROSS_DIVISIONS" (if dup then "True" else "False")
        else r)
      (true, .table ⟨t1.cols, rows2⟩)
    else (false, .table t)

/-- The duplicate filter of `merge_csv_files` (lines 197-216): with a GAMEID
column on `new`, drop its rows whose GAMEID value lies in `existing`'s GAMEID
value set (empty when `existing` lacks the column); otherwise fall back to
GAMELINK the same way; with neither column on `new`, keep every row. -/
def filterNewRows (e n : Table) : List Row :=
  if n.cols.contains "GAMEID" then
    let ids := if e.cols.contains "GAMEID"
      then e.rows.map (fun r => getCell r "GAMEID") else []
    n.rows.filter (fun r => !(ids.contains (getCell r "GAMEID")))
  else if n.cols.contains "GAMELINK" then
    let links := if e.cols.contains "GAMELINK"
      then e.rows.map (fun r => getCell r "GAMELINK") else []
    n.rows.filter (fun r => !(links.contains (getCell r "GAMELINK")))
  else n.rows

/-- Column union in order of first appearance, as `pd.concat` produces for
two frames with differing headers. -/
def unionCols (a b : List String) : List String :=
  a ++ b.filter (fun c => !(a.contains c))

/-- `CSVHandler.merge_csv_files`: `some t` means the call returned True after
writing table `t` to the output path; `none` means it returned False with
nothing written.  Missing `existing` passes `new` through; empty or missing
`new` keeps `existing`; otherwise `existing`'s rows are followed by the
filtered rows of `new` (and `existing` verbatim when the filter drops
everything). -/
def merge_csv_files (existing new : CsvFile) : Option Table :=
  match read_csv_safely existing with
  | none =>
    match read_csv_safely new with
    | some n => some n
    | none => none
  | some e =>
    match read_csv_safely new with
    | none => some e
    | some n =>
      if n.rows.isEmpty then some e
      else
        let filtered := filterNewRows e n
        if filtered.isEmpty then some e
        else some ⟨unionCols e.cols n.cols, e.rows ++ filtered⟩

/-! Association-list lemmas: how `alist_set` and `alist_erase` interact with
`List.lookup` and with the key list. -/

theorem lookup_alist_set_self {α : Type} (l : List (String × α)) (k : String) (v : α) :
    List.lookup k (alist_set l k v) = some v := by
  induction l with
  | nil => simp [alist_set]
  | cons p rest ih =>
    obtain ⟨k', v'⟩ := p
    by_cases h : k' = k
    · subst h
      simp [alist_set]
    · simp only [alist_set, beq_iff_eq, h, if_false, List.lookup_cons]
      have hk : (k == k') = false := by
        simp [Ne.symm h]
      simp [hk, ih]

theorem lookup_alist_set_ne {α : Type} (l : List (String × α)) (k k'' : String) (v : α)
    (h : k'' ≠ k) : List.lookup k'' (alist_set l k v) = List.lookup k'' l := by
  have hbeq : (k'' == k) = false := by simp [h]
  induction l with
  | nil => simp [alist_set, List.lookup_cons, hbeq]
  | cons p rest ih =>
    obtain ⟨k', v'⟩ := p
    by_cases hk : k' = k
    · subst hk
      simp [alist_set, List.lookup_cons, hbeq]
    · simp only [alist_set, beq_iff_eq, hk, if_false, List.lookup_cons]
      by_cases hkk : k'' = k'
      · simp [hkk]
      · have hbeq2 : (k'' == k') = false := by simp [hkk]
        simp [hbeq2, ih]

theorem keys_alist_set_of_mem {α : Type} (l : List (String × α)) (k : String) (v : α)
    (h : k ∈ l.map Prod.fst) :
    (alist_set l k v).map Prod.fst = l.map Prod.fst := by
  induction l with
  | nil => simp at h
  | cons p rest ih =>
    obtain ⟨k', v'⟩ := p
    by_cases hk : k' = k
    · subst hk
      simp [alist_set]
    · simp only [List.map_cons, List.mem_cons] at h
      rcases h with h | h
      · exact absurd h.symm hk
      · simp [alist_set, hk, ih h]

theorem keys_alist_set_of_not_mem {α : Type} (l : List (String × α)) (k : String) (v : α)
    (h : k ∉ l.map Prod.fst) :
    (alist_set l k v).map Prod.fst = l.map Prod.fst ++ [k] := by
  induction l with
  | nil => simp [alist_set]
  | cons p rest ih =>
    obtain ⟨k', v'⟩ := p
    simp only [List.map_cons, List.mem_cons, not_or] at h
    obtain ⟨h1, h2⟩ := h
    have hk : k' ≠ k := fun hh => h1 hh.symm
    simp [alist_set, hk, ih h2]

theorem mem_alist_set_of_nodup {α : Type} (l : List (String × α)) (k : String) (v : α)
    (p : String × α) (hnd : (l.map Prod.fst).Nodup) (h : p ∈ alist_set l k v) :
    p = (k, v) ∨ (p ∈ l ∧ p.1 ≠ k) := by
  induction l with
  | nil =>
    simp [alist_set] at h
    exact Or.inl h
  | cons q rest ih =>
    obtain ⟨k', v'⟩ := q
    simp only [List.map_cons, List.nodup_cons] at hnd
    obtain ⟨hk', hrest⟩ := hnd
    by_cases hkk : k' = k
    · subst hkk
      simp only [alist_set, beq_self_eq_true, if_true, List.mem_cons] at h
      rcases h with h | h
      · exact Or.inl h
      · right
        refine ⟨List.mem_cons_of_mem _ h, ?_⟩
        intro hpk
        exact hk' (hpk ▸ List.mem_map_of_mem Prod.fst h)
    · simp only [alist_set, beq_iff_eq, hkk, if_false, List.mem_cons] at h
      rcases h with h | h
      · subst h
        exact Or.inr ⟨List.mem_cons_self _ _, hkk⟩
      · rcases ih hrest h with h1 | ⟨h1, h2⟩
        · exact Or.inl h1
        · exact Or.inr ⟨List.mem_cons_of_mem _ h1, h2⟩

theorem alist_erase_sublist {α : Type} (l : List (String × α)) (k : String) :
    (alist_erase l k).Sublist l := by
  induction l with
  | nil => simp [alist_erase]
  | cons p rest ih =>
    obtain ⟨k', v'⟩ := p
    by_cases hk : k' = k
    · simp [alist_erase, hk]
    · simpa [alist_erase, hk] using ih

theorem not_mem_keys_alist_erase {α : Type} (l : List (String × α)) (k : String)
    (hnd : (l.map Prod.fst).Nodup) : k ∉ (alist_erase l k).map Prod.fst := by
  induction l with
  | nil => simp [alist_erase]
  | cons p rest ih =>
    obtain ⟨k', v'⟩ := p
    simp only [List.map_cons, List.nodup_cons] at hnd
    obtain ⟨hk', hrest⟩ := hnd
    by_cases hk : k' = k
    · subst hk
      simpa [alist_erase] using hk'
    · simp only [alist_erase, beq_iff_eq, hk, if_false, List.map_cons, List.mem_cons,
        not_or]
      exact ⟨fun hh => hk hh.symm, ih hrest⟩

theorem lookup_alist_erase_self {α : Type} (l : List (String × α)) (k : String)
    (hnd : (l.map Prod.fst).Nodup) : List.lookup k (alist_erase l k) = none := by
  rw [List.lookup_eq_none_iff]
  intro p hp
  have : p.1 ∈ (alist_erase l k).map Prod.fst := List.mem_map_of_mem Prod.fst hp
  have hne : k ≠ p.1 := by
    intro hh
    exact not_mem_keys_alist_erase l k hnd (hh ▸ this)
  simpa using hne

theorem lookup_eq_some_mem {α : Type} (l : List (String × α)) (k : String) (v : α)
    (h : List.lookup k l = some v) : (k, v) ∈ l := by
  induction l with
  | nil => simp at h
  | cons p rest ih =>
    obtain ⟨k', v'⟩ := p
    by_cases hk : k = k'
    · subst hk
      simp only [List.lookup_cons_self, Option.some.injEq] at h
      subst h
      exact List.mem_cons_self _ _
    · have hbeq : (k == k') = false := by simp [hk]
      simp only [List.lookup_cons, hbeq] at h
      exact List.mem_cons_of_mem _ (ih h)

theorem mem_keys_of_lookup_isSome {α : Type} (l : List (String × α)) (k : String)
    (h : (List.lookup k l).isSome) : k ∈ l.map Prod.fst := by
  rw [List.lookup_isSome_iff] at h
  obtain ⟨p, hp, he⟩ := h
  have : k = p.1 := by simpa using he
  exact this ▸ List.mem_map_of_mem Prod.fst hp

theorem eq_of_mem_of_keys_nodup {α : Type} (l : List (String × α)) (k : String)
    (a b : α) (hnd : (l.map Prod.fst).Nodup) (ha : (k, a) ∈ l) (hb : (k, b) ∈ l) :
    a = b := by
  induction l with
  | nil => simp at ha
  | cons p rest ih =>
    obtain ⟨k', v'⟩ := p
    simp only [List.map_cons, List.nodup_cons] at hnd
    obtain ⟨hk', hrest⟩ := hnd
    simp only [List.mem_cons, Prod.mk.injEq] at ha hb
    rcases ha with ⟨hak, hav⟩ | ha
    · rcases hb with ⟨hbk, hbv⟩ | hb
      · rw [hav, hbv]
      · exact absurd (hak ▸ List.mem_map_of_mem Prod.fst hb) hk'
    · rcases hb with ⟨hbk, hbv⟩ | hb
      · exact absurd (hbk ▸ List.mem_map_of_mem Prod.fst ha) hk'
      · exact ih hrest ha hb

/-! Record-list lemmas: the search-and-update loop of `save_failed_game` and
the retry loop of `mark_game_as_retried`. -/

theorem save_update_entries_of_no_match (es : List Entry) (dv gd et em : String)
    (h : ∀ x ∈ es, entryKeyMatches x dv gd = false) :
    save_update_entries es dv gd et em = es ++ [⟨dv, gd, et, em, some 0⟩] := by
  induction es with
  | nil => simp [save_update_entries]
  | cons e rest ih =>
    have he : entryKeyMatches e dv gd = false := h e (List.mem_cons_self _ _)
    simp only [save_update_entries, he, Bool.false_eq_true, if_false, List.cons_append,
      List.cons.injEq, true_and]
    exact ih (fun x hx => h x (List.mem_cons_of_mem _ hx))

theorem save_update_entries_first_match (es₁ : List Entry) (e : Entry)
    (es₂ : List Entry) (dv gd et em : String)
    (h1 : ∀ x ∈ es₁, entryKeyMatches x dv gd = false)
    (h2 : entryKeyMatches e dv gd = true) :
    save_update_entries (es₁ ++ e :: es₂) dv gd et em
      = es₁ ++ { e with error_type := et, error_message := em,
                        retry_count := some (e.retry_count.getD 0) } :: es₂ := by
  induction es₁ with
  | nil => simp [save_update_entries, h2]
  | cons x rest ih =>
    have hx : entryKeyMatches x dv gd = false := h1 x (List.mem_cons_self _ _)
    simp only [List.cons_append, save_update_entries, hx, Bool.false_eq_true, if_false,
      List.cons.injEq, true_and]
    exact ih (fun y hy => h1 y (List.mem_cons_of_mem _ hy))

theorem mark_entries_first_match_false (es₁ : List Entry) (e : Entry)
    (es₂ : List Entry) (dv gd : String)
    (h1 : ∀ x ∈ es₁, entryKeyMatches x dv gd = false)
    (h2 : entryKeyMatches e dv gd = true) :
    mark_entries (es₁ ++ e :: es₂) dv gd false
      = es₁ ++ { e with retry_count := some (e.retry_count.getD 0 + 1) } :: es₂ := by
  induction es₁ with
  | nil => simp [mark_entries, h2]
  | cons x rest ih =>
    have hx : entryKeyMatches x dv gd = false := h1 x (List.mem_cons_self _ _)
    simp only [List.cons_append, mark_entries, hx, Bool.false_eq_true, if_false,
      List.cons.injEq, true_and]
    exact ih (fun y hy => h1 y (List.mem_cons_of_mem _ hy))

theorem entryKey_eq_of_match (e : Entry) (dv gd : String)
    (h : entryKeyMatches e dv gd = true) : entryKey e = (dv, gd) := by
  simp only [entryKeyMatches, Bool.and_eq_true, beq_iff_eq] at h
  simp [entryKey, h.1, h.2]

theorem entryKey_ne_of_not_match (e : Entry) (dv gd : String)
    (h : entryKeyMatches e dv gd = false) : entryKey e ≠ (dv, gd) := by
  simp only [entryKeyMatches, Bool.and_eq_false_iff, beq_eq_false_iff_ne] at h
  intro hh
  simp only [entryKey, Prod.mk.injEq] at hh
  rcases h with h | h
  · exact h hh.1
  · exact h hh.2

theorem keys_save_update_entries (es : List Entry) (dv gd et em : String) :
    (save_update_entries es dv gd et em).map entryKey
      = es.map entryKey
        ++ (if es.any (fun e => entryKeyMatches e dv gd) then [] else [(dv, gd)]) := by
  induction es with
  | nil => simp [save_update_entries, entryKey]
  | cons e rest ih =>
    by_cases he : entryKeyMatches e dv gd = true
    · simp [save_update_entries, he, entryKey, List.any_cons]
    · have he' : entryKeyMatches e dv gd = false := by
        cases h : entryKeyMatches e dv gd
        · rfl
        · exact absurd h he
      simp [save_update_entries, he', List.any_cons, ih]

theorem entriesNoDupKey_save_update (es : List Entry) (dv gd et em : String)
    (h : entriesNoDupKey es) :
    entriesNoDupKey (save_update_entries es dv gd et em) := by
  unfold entriesNoDupKey at h ⊢
  rw [keys_save_update_entries]
  cases hany : es.any (fun e => entryKeyMatches e dv gd)
  · simp only [Bool.false_eq_true, if_false]
    rw [List.nodup_append]
    refine ⟨h, List.nodup_singleton _, ?_⟩
    intro a ha hb
    simp only [List.mem_singleton] at hb
    subst hb
    simp only [List.mem_map] at ha
    obtain ⟨e, he, hk⟩ := ha
    have : entryKeyMatches e dv gd = false := by
      rw [List.any_eq_false] at hany
      have := hany e he
      cases hm : entryKeyMatches e dv gd
      · rfl
      · exact absurd hm this
    exact entryKey_ne_of_not_match e dv gd this hk
  · simpa using h

theorem mark_entries_true_no_match (es : List Entry) (dv gd : String)
    (h : entriesNoDupKey es) :
    ∀ e ∈ mark_entries es dv gd true, entryKeyMatches e dv gd = false := by
  induction es with
  | nil => simp [mark_entries]
  | cons e rest ih =>
    unfold entriesNoDupKey at h
    simp only [List.map_cons, List.nodup_cons] at h
    obtain ⟨hk, hrest⟩ := h
    by_cases he : entryKeyMatches e dv gd = true
    · simp only [mark_entries, he, if_true]
      intro x hx
      cases hm : entryKeyMatches x dv gd
      · rfl
      · exfalso
        have hkx : entryKey x = (dv, gd) := entryKey_eq_of_match x dv gd hm
        have hke : entryKey e = (dv, gd) := entryKey_eq_of_match e dv gd he
        exact hk (hke ▸ hkx ▸ List.mem_map_of_mem entryKey hx)
    · have he' : entryKeyMatches e dv gd = false := by
        cases hm : entryKeyMatches e dv gd
        · rfl
        · exact absurd hm he
      simp only [mark_entries, he', Bool.false_eq_true, if_false]
      intro x hx
      rcases List.mem_cons.mp hx with hx | hx
      · exact hx ▸ he'
      · exact ih hrest x hx

theorem countP_matches_le_one (es : List Entry) (dv gd : String)
    (h : entriesNoDupKey es) :
    es.countP (fun e => entryKeyMatches e dv gd) ≤ 1 := by
  induction es with
  | nil => simp
  | cons e rest ih =>
    unfold entriesNoDupKey at h
    simp only [List.map_cons, List.nodup_cons] at h
    obtain ⟨hk, hrest⟩ := h
    simp only [List.countP_cons]
    by_cases he : entryKeyMatches e dv gd = true
    · have hz : rest.countP (fun e => entryKeyMatches e dv gd) = 0 := by
        rw [List.countP_eq_zero]
        intro x hx
        cases hm : entryKeyMatches x dv gd
        · simp
        · exfalso
          have hkx : entryKey x = (dv, gd) := entryKey_eq_of_match x dv gd hm
          have hke : entryKey e = (dv, gd) := entryKey_eq_of_match e dv gd he
          exact hk (hke ▸ hkx ▸ List.mem_map_of_mem entryKey hx)
      simp [he, hz]
    · have he' : entryKeyMatches e dv gd = false := by
        cases hm : entryKeyMatches e dv gd
        · rfl
        · exact absurd hm he
      simpa [he'] using ih hrest

/-! Ledger-level lemmas about `save_core`. -/

theorem lookup_append_self_nil {α : Type} (l : List (String × α)) (k : String) (v : α)
    (h : List.lookup k l = none) : List.lookup k (l ++ [(k, v)]) = some v := by
  rw [List.lookup_append, h]
  simp

theorem not_mem_keys_of_lookup_none {α : Type} (l : List (String × α)) (k : String)
    (h : List.lookup k l = none) : k ∉ l.map Prod.fst := by
  intro hm
  obtain ⟨p, hp, hk⟩ := List.mem_map.mp hm
  rw [List.lookup_eq_none_iff] at h
  have := h p hp
  simp [hk] at this

theorem bucket_wf_of_lookup (l : Ledger) (dk : String) (games : Bucket)
    (hwf : LedgerWF l) (h : List.lookup dk l = some games) :
    (games.map Prod.fst).Nodup ∧ ∀ q ∈ games, entriesNoDupKey q.2 :=
  hwf.2 (dk, games) (lookup_eq_some_mem l dk games h)

theorem LedgerWF_alist_set (l : Ledger) (dk : String) (b : Bucket)
    (hwf : LedgerWF l) (hb1 : (b.map Prod.fst).Nodup)
    (hb2 : ∀ q ∈ b, entriesNoDupKey q.2) :
    LedgerWF (alist_set l dk b) := by
  obtain ⟨hdates, hbuckets⟩ := hwf
  constructor
  · by_cases hm : dk ∈ l.map Prod.fst
    · rw [keys_alist_set_of_mem l dk b hm]
      exact hdates
    · rw [keys_alist_set_of_not_mem l dk b hm]
      simp [List.nodup_append, hdates, hm]
  · intro p hp
    rcases mem_alist_set_of_nodup l dk b p hdates hp with h | ⟨h, _⟩
    · rw [h]
      exact ⟨hb1, hb2⟩
    · exact hbuckets p h

theorem save_core_entriesAt (l : Ledger) (g dk dv gd et em : String) :
    entriesAt (save_core l g dk dv gd et em) dk g
      = save_update_entries (entriesAt l dk g) dv gd et em := by
  cases hdk : List.lookup dk l with
  | none =>
    have h1 : List.lookup dk (l ++ [(dk, ([] : List (String × List Entry)))]) = some [] :=
      lookup_append_self_nil l dk [] hdk
    simp [save_core, entriesAt, hdk, h1, lookup_alist_set_self]
  | some games =>
    cases hg : List.lookup g games with
    | none =>
      have h2 : List.lookup g (games ++ [(g, ([] : List Entry))]) = some [] :=
        lookup_append_self_nil games g [] hg
      simp [save_core, entriesAt, hdk, hg, h2, lookup_alist_set_self]
    | some entries =>
      simp [save_core, entriesAt, hdk, hg, lookup_alist_set_self]

theorem LedgerWF_save_core (l : Ledger) (g dk dv gd et em : String)
    (hwf : LedgerWF l) : LedgerWF (save_core l g dk dv gd et em) := by
  unfold save_core
  by_cases hdk : (List.lookup dk l).isSome
  · obtain ⟨games, hgames⟩ := Option.isSome_iff_exists.mp hdk
    have hbw := bucket_wf_of_lookup l dk games hwf hgames
    simp only [hgames, Option.isSome_some, if_true, Option.getD_some]
    by_cases hg : (List.lookup g games).isSome
    · obtain ⟨entries, hentries⟩ := Option.isSome_iff_exists.mp hg
      have hek : entriesNoDupKey entries :=
        hbw.2 (g, entries) (lookup_eq_some_mem games g entries hentries)
      simp only [hentries, Option.isSome_some, if_true, Option.getD_some]
      apply LedgerWF_alist_set l dk _ hwf
      · rw [keys_alist_set_of_mem]
        · exact hbw.1
        · exact mem_keys_of_lookup_isSome games g (by rw [hentries]; rfl)
      · intro q hq
        rcases mem_alist_set_of_nodup games g _ q hbw.1 hq with h | ⟨h, _⟩
        · rw [h]
          exact entriesNoDupKey_save_update entries dv gd et em hek
        · exact hbw.2 q h
    · rw [Option.not_isSome_iff_eq_none] at hg
      have h2 : List.lookup g (games ++ [(g, ([] : List Entry))]) = some [] :=
        lookup_append_self_nil games g [] hg
      have hgfresh : g ∉ games.map Prod.fst := not_mem_keys_of_lookup_none games g hg
      simp only [hg, Option.isSome_none, Bool.false_eq_true, if_false, h2,
        Option.getD_some]
      apply LedgerWF_alist_set l dk _ hwf
      · rw [keys_alist_set_of_mem]
        · simp [List.nodup_append, hbw.1, hgfresh]
        · simp
      · intro q hq
        have hnd1 : ((games ++ [(g, ([] : List Entry))]).map Prod.fst).Nodup := by
          simp [List.nodup_append, hbw.1, hgfresh]
        rcases mem_alist_set_of_nodup _ g _ q hnd1 hq with h | ⟨h, _⟩
        · rw [h]
          exact entriesNoDupKey_save_update [] dv gd et em (by simp [entriesNoDupKey])
        · rcases List.mem_append.mp h with h | h
          · exact hbw.2 q h
          · simp only [List.mem_singleton] at h
            rw [h]
            simp [entriesNoDupKey]
  · rw [Option.not_isSome_iff_eq_none] at hdk
    have h1 : List.lookup dk (l ++ [(dk, ([] : List (String × List Entry)))]) = some [] :=
      lookup_append_self_nil l dk [] hdk
    have hdkfresh : dk ∉ l.map Prod.fst := not_mem_keys_of_lookup_none l dk hdk
    have hwf1 : LedgerWF (l ++ [(dk, ([] : List (String × List Entry)))]) := by
      obtain ⟨hdates, hbuckets⟩ := hwf
      constructor
      · simp [List.nodup_append, hdates, hdkfresh]
      · intro p hp
        rcases List.mem_append.mp hp with h | h
        · exact hbuckets p h
        · simp only [List.mem_singleton] at h
          rw [h]
          simp
    simp only [hdk, Option.isSome_none, Bool.false_eq_true, if_false, h1,
      Option.getD_some, List.lookup_nil, Option.getD_none, List.nil_append,
      List.lookup_cons_self]
    have hset : alist_set [(g, ([] : List Entry))] g (save_update_entries [] dv gd et em)
        = [(g, save_update_entries [] dv gd et em)] := by
      simp [alist_set]
    rw [hset]
    apply LedgerWF_alist_set _ dk _ hwf1
    · simp
    · intro q hq
      simp only [List.mem_singleton] at hq
      rw [hq]
      exact entriesNoDupKey_save_update [] dv gd et em (by simp [entriesNoDupKey])

theorem countRecords_le_one (l : Ledger) (dk g dv gd : String) (hwf : LedgerWF l) :
    countRecords l dk g dv gd ≤ 1 := by
  unfold countRecords entriesAt
  cases hdk : List.lookup dk l with
  | none => simp
  | some games =>
    cases hg : List.lookup g games with
    | none => simp [hg]
    | some entries =>
      have hbw := bucket_wf_of_lookup l dk games hwf hdk
      have hek : entriesNoDupKey entries :=
        hbw.2 (g, entries) (lookup_eq_some_mem games g entries hg)
      simpa [hg] using countP_matches_le_one entries dv gd hek

/-! Single-key operation sequences: the ledger file tracks the abstract
per-key state machine. -/

theorem reprKeyState_step (g dk dv gd : String) (f : LedgerFile)
    (st : Option (String × String × Nat)) (op : LedgerOp)
    (h : ReprKeyState g dk dv gd f st) :
    ReprKeyState g dk dv gd (applyLedgerOp f g dk dv gd op) (keySpecStep st op) := by
  cases op with
  | save et em =>
    cases st with
    | none =>
      rcases h with h | h <;> subst h <;>
        simp [ReprKeyState, keySpecStep, applyLedgerOp, save_failed_game,
          loadedForSave, save_core, alist_set, save_update_entries]
    | some tpl =>
      obtain ⟨et0, em0, c⟩ := tpl
      rw [show f = .content [(dk, [(g, [⟨dv, gd, et0, em0, some c⟩])])] from h]
      simp [ReprKeyState, keySpecStep, applyLedgerOp, save_failed_game,
        loadedForSave, save_core, alist_set, save_update_entries, entryKeyMatches]
  | retry s =>
    cases st with
    | none =>
      rcases h with h | h <;> subst h <;> cases s <;>
        simp [ReprKeyState, keySpecStep, applyLedgerOp, mark_game_as_retried,
          mark_core]
    | some tpl =>
      obtain ⟨et0, em0, c⟩ := tpl
      rw [show f = .content [(dk, [(g, [⟨dv, gd, et0, em0, some c⟩])])] from h]
      cases s <;>
        simp [ReprKeyState, keySpecStep, applyLedgerOp, mark_game_as_retried,
          mark_core, mark_entries, entryKeyMatches, alist_set, alist_erase]

theorem applyLedgerOps_reprKeyState (ops : List LedgerOp) (g dk dv gd : String)
    (f : LedgerFile) (st : Option (String × String × Nat))
    (h : ReprKeyState g dk dv gd f st) :
    ReprKeyState g dk dv gd (applyLedgerOps f g dk dv gd ops)
      (ops.foldl keySpecStep st) := by
  induction ops generalizing f st with
  | nil => exact h
  | cons op rest ih =>
    simp only [applyLedgerOps, List.foldl_cons]
    exact ih (applyLedgerOp f g dk dv gd op) (keySpecStep st op)
      (reprKeyState_step g dk dv gd f st op h)

theorem recordsForKey_of_reprKeyState (g dk dv gd : String) (f : LedgerFile)
    (st : Option (String × String × Nat)) (h : ReprKeyState g dk dv gd f st) :
    recordsForKey f dk g dv gd = specRecords dv gd st := by
  cases st with
  | none =>
    rcases h with h | h <;> subst h <;>
      simp [recordsForKey, specRecords, entriesAt]
  | some tpl =>
    obtain ⟨et, em, c⟩ := tpl
    rw [show f = .content [(dk, [(g, [⟨dv, gd, et, em, some c⟩])])] from h]
    simp [recordsForKey, specRecords, entriesAt, entryKeyMatches]

theorem alist_set_ne_nil {α : Type} (l : List (String × α)) (k : String) (v : α) :
    alist_set l k v ≠ [] := by
  cases l with
  | nil => simp [alist_set]
  | cons p rest =>
    obtain ⟨k', v'⟩ := p
    by_cases h : k' = k <;> simp [alist_set, h]

theorem mark_core_eq_of_lookup (l : Ledger) (g dk dv gd : String) (success : Bool)
    (games : Bucket) (entries : List Entry)
    (hdk : List.lookup dk l = some games) (hg : List.lookup g games = some entries) :
    mark_core l g dk dv gd success
      = (let games1 :=
           if success && entries.any (fun e => entryKeyMatches e dv gd)
               && (mark_entries entries dv gd success).isEmpty
           then alist_erase games g
           else alist_set games g (mark_entries entries dv gd success)
         if games1.isEmpty then alist_erase (alist_set l dk games1) dk
         else alist_set l dk games1) := by
  simp only [mark_core, hdk, hg, lookup_alist_set_self, Option.getD_some]

/-! Claim theorems. -/

/-- C1: for every well-formed ledger state (the spec's data-model invariant:
unique keys and at most one record per (date, game, division, gender) tuple)
and every save call, the result is again well-formed with at most one record
per tuple; a record matching (division, gender) in the (date, game) bucket is
overwritten in place (error fields replaced, retry count preserved,
defaulting to 0 when absent), and otherwise a fresh record with retry count 0
is appended. -/
theorem save_preserves_at_most_one_record (l : Ledger) (g dk dv gd et em : String)
    (hwf : LedgerWF l) :
    LedgerWF (save_core l g dk dv gd et em)
    ∧ (∀ dk' g' dv' gd',
        countRecords (save_core l g dk dv gd et em) dk' g' dv' gd' ≤ 1)
    ∧ entriesAt (save_core l g dk dv gd et em) dk g
        = save_update_entries (entriesAt l dk g) dv gd et em
    ∧ (∀ es₁ e es₂, (∀ x ∈ es₁, entryKeyMatches x dv gd = false) →
        entryKeyMatches e dv gd = true →
        save_update_entries (es₁ ++ e :: es₂) dv gd et em
          = es₁ ++ { e with error_type := et, error_message := em,
                            retry_count := some (e.retry_count.getD 0) } :: es₂)
    ∧ (∀ es, (∀ x ∈ es, entryKeyMatches x dv gd = false) →
        save_update_entries es dv gd et em = es ++ [⟨dv, gd, et, em, some 0⟩]) := by
  refine ⟨LedgerWF_save_core l g dk dv gd et em hwf, ?_,
    save_core_entriesAt l g dk dv gd et em, ?_, ?_⟩
  · intro dk' g' dv' gd'
    exact countRecords_le_one _ dk' g' dv' gd' (LedgerWF_save_core l g dk dv gd et em hwf)
  · intro es₁ e es₂ h1 h2
    exact save_update_entries_first_match es₁ e es₂ dv gd et em h1 h2
  · intro es h1
    exact save_update_entries_of_no_match es dv gd et em h1

/-- Witness for C1 at a concrete well-formed ledger. -/
theorem save_preserves_at_most_one_record_witness :
    countRecords
      (save_core [("2025-01-12", [("g1", [⟨"d1", "men", "timeout", "", some 2⟩])])]
        "g1" "2025-01-12" "d1" "men" "driver_error" "boom")
      "2025-01-12" "g1" "d1" "men" ≤ 1 :=
  (save_preserves_at_most_one_record
      [("2025-01-12", [("g1", [⟨"d1", "men", "timeout", "", some 2⟩])])]
      "g1" "2025-01-12" "d1" "men" "driver_error" "boom" (by decide)).2.1
    "2025-01-12" "g1" "d1" "men"

/-- C2 counterexample: from an empty ledger, run save, a successful retry, a
failed retry, then save again, all on one key.  The final record has
retry count 0, while the number of failed retries since the last successful
retry in the call sequence is 1 — the failed retry ran while no record
existed and was a no-op, so the claim's count is wrong. -/
theorem retry_count_since_success_counterexample :
    recordsForKey
      (applyLedgerOps .missing "g1" "2025-01-12" "d1" "men"
        [.save "timeout" "", .retry true, .retry false, .save "timeout" ""])
      "2025-01-12" "g1" "d1" "men"
      = [⟨"d1", "men", "timeout", "", some 0⟩]
    ∧ failedRetriesSinceLastSuccess
        [.save "timeout" "", .retry true, .retry false, .save "timeout" ""] = 1 := by
  decide

/-- C2 as amended: over any sequence of save and mark-retried calls on one
key starting from a missing ledger file, the records for the key are exactly
those of the abstract per-key state machine — save creates the record with
retry count 0 or overwrites the error fields keeping the count, a successful
retry deletes the record, and a failed retry increments the count only when
the record exists (and is a no-op otherwise); moreover a failed retry on an
existing record increments its retry count by exactly 1, treating a missing
retry-count field as 0. -/
theorem ledger_key_state_characterization :
    (∀ (ops : List LedgerOp) (g dk dv gd : String),
        recordsForKey (applyLedgerOps .missing g dk dv gd ops) dk g dv gd
          = specRecords dv gd (keySpecFold ops))
    ∧ (∀ (es₁ : List Entry) (e : Entry) (es₂ : List Entry) (dv gd : String),
        (∀ x ∈ es₁, entryKeyMatches x dv gd = false) →
        entryKeyMatches e dv gd = true →
        mark_entries (es₁ ++ e :: es₂) dv gd false
          = es₁ ++ { e with retry_count := some (e.retry_count.getD 0 + 1) } :: es₂) := by
  constructor
  · intro ops g dk dv gd
    exact recordsForKey_of_reprKeyState g dk dv gd _ _
      (applyLedgerOps_reprKeyState ops g dk dv gd .missing none (Or.inl rfl))
  · intro es₁ e es₂ dv gd h1 h2
    exact mark_entries_first_match_false es₁ e es₂ dv gd h1 h2

/-- Witness for C2 at a concrete operation sequence and a concrete record
whose retry-count field is missing. -/
theorem ledger_key_state_characterization_witness :
    recordsForKey
      (applyLedgerOps .missing "g1" "2025-01-12" "d1" "men"
        [.save "timeout" "x", .retry false])
      "2025-01-12" "g1" "d1" "men"
      = [⟨"d1", "men", "timeout", "x", some 1⟩]
    ∧ mark_entries [⟨"d1", "men", "timeout", "x", none⟩] "d1" "men" false
      = [⟨"d1", "men", "timeout", "x", some 1⟩] := by
  constructor
  · rw [ledger_key_state_characterization.1 [.save "timeout" "x", .retry false]
      "g1" "2025-01-12" "d1" "men"]
    decide
  · have h := ledger_key_state_characterization.2 []
      ⟨"d1", "men", "timeout", "x", none⟩ [] "d1" "men" (by simp) (by decide)
    simpa using h

/-- C7: `game_exists_in_csv` returns true exactly when the file exists, is
parsable, has a GAMEID column and that column contains the game id; a missing
file, unreadable file, or missing column yields false (the code catches the
read error rather than raising). -/
theorem game_exists_in_csv_iff (f : CsvFile) (game_id : String) :
    game_exists_in_csv f game_id = true
      ↔ ∃ t, f = CsvFile.table t ∧ t.cols.contains "GAMEID" = true
          ∧ some game_id ∈ t.rows.map (fun r => getCell r "GAMEID") := by
  cases f with
  | missing => simp [game_exists_in_csv]
  | unreadable => simp [game_exists_in_csv]
  | table t =>
    by_cases hc : t.cols.contains "GAMEID" = true
    · simp [game_exists_in_csv, hc, List.contains_iff_exists_mem_beq]
    · simp only [Bool.not_eq_true] at hc
      simp [game_exists_in_csv, hc]

/-- C8: `load_failed_games` never raises; a missing or unparsable file yields
an empty result whatever the target date, no target date returns the full
store, and a target date returns the single-entry structure holding only that
date's bucket, empty when the date is absent. -/
theorem load_failed_games_characterization (l : Ledger) (dk : String)
    (target : Option String) :
    load_failed_games .missing target = []
    ∧ load_failed_games .corrupt target = []
    ∧ load_failed_games (.content l) none = l
    ∧ load_failed_games (.content l) (some dk) = [(dk, (List.lookup dk l).getD [])]
    ∧ (List.lookup dk l = none → load_failed_games (.content l) (some dk) = [(dk, [])]) := by
  refine ⟨rfl, rfl, rfl, rfl, ?_⟩
  intro h
  simp [load_failed_games, h]

/-- Witness for C8 at a concrete store and absent date. -/
theorem load_failed_games_characterization_witness :
    load_failed_games
      (.content [("2025-01-12", [("g1", [⟨"d1", "men", "timeout", "", some 0⟩])])])
      (some "2025-02-01") = [("2025-02-01", [])] :=
  (load_failed_games_characterization
      [("2025-01-12", [("g1", [⟨"d1", "men", "timeout", "", some 0⟩])])]
      "2025-02-01" (some "2025-02-01")).2.2.2.2 (by decide)

/-- C9: `mark_game_as_retried` on a missing ledger store file returns without
creating the file or changing any state, for every argument. -/
theorem mark_retried_missing_file_noop (g dk dv gd : String) (success : Bool) :
    mark_game_as_retried .missing g dk dv gd success = .missing :=
  rfl

/-- C3: on a well-formed ledger (the spec's data-model invariant) holding a
record for (date, game, division, gender), a successful retry removes the
matching record from the game's bucket, removes the game entry when its
record list becomes empty, removes the date entry when its game mapping
becomes empty, and a query for the same (date, division, gender) on the
result no longer contains that game. -/
theorem mark_retried_success_removes_record (l : Ledger) (g dk dv gd : String)
    (hwf : LedgerWF l)
    (hrec : (entriesAt l dk g).any (fun e => entryKeyMatches e dv gd) = true) :
    (∀ e ∈ entriesAt (mark_core l g dk dv gd true) dk g,
        entryKeyMatches e dv gd = false)
    ∧ (mark_entries (entriesAt l dk g) dv gd true = [] →
        List.lookup g ((List.lookup dk (mark_core l g dk dv gd true)).getD []) = none)
    ∧ (mark_entries (entriesAt l dk g) dv gd true = [] →
        ((List.lookup dk l).getD []).map Prod.fst = [g] →
        List.lookup dk (mark_core l g dk dv gd true) = none)
    ∧ g ∉ get_failed_games_for_division_gender (mark_core l g dk dv gd true) dk dv gd := by
  cases hdk : List.lookup dk l with
  | none => simp [entriesAt, hdk] at hrec
  | some games =>
  cases hg : List.lookup g games with
  | none => simp [entriesAt, hdk, hg] at hrec
  | some entries =>
  have hEA : entriesAt l dk g = entries := by simp [entriesAt, hdk, hg]
  rw [hEA] at hrec
  rw [hEA]
  simp only [Option.getD_some]
  have hndl : (l.map Prod.fst).Nodup := hwf.1
  have hbw := bucket_wf_of_lookup l dk games hwf hdk
  have hek : entriesNoDupKey entries :=
    hbw.2 (g, entries) (lookup_eq_some_mem games g entries hg)
  have hnomatch := mark_entries_true_no_match entries dv gd hek
  have hdkmem : dk ∈ l.map Prod.fst :=
    mem_keys_of_lookup_isSome l dk (by rw [hdk]; rfl)
  rw [mark_core_eq_of_lookup l g dk dv gd true games entries hdk hg]
  simp only [hrec, Bool.true_and, Bool.and_true]
  by_cases hemp : mark_entries entries dv gd true = []
  · simp only [hemp, List.isEmpty_nil, if_true]
    by_cases hge : (alist_erase games g).isEmpty = true
    · rw [if_pos hge]
      have hkeys : ((alist_set l dk (alist_erase games g)).map Prod.fst).Nodup := by
        rw [keys_alist_set_of_mem l dk _ hdkmem]
        exact hndl
      have hlk : List.lookup dk
          (alist_erase (alist_set l dk (alist_erase games g)) dk) = none :=
        lookup_alist_erase_self _ dk hkeys
      refine ⟨?_, ?_, ?_, ?_⟩
      · intro e he
        rw [entriesAt, hlk] at he
        simp at he
      · intro _
        rw [hlk]
        simp
      · intro _ _
        exact hlk
      · simp [get_failed_games_for_division_gender, hlk]
    · rw [if_neg hge]
      have hlk : List.lookup dk (alist_set l dk (alist_erase games g))
          = some (alist_erase games g) := lookup_alist_set_self l dk _
      have hgk : List.lookup g (alist_erase games g) = none :=
        lookup_alist_erase_self games g hbw.1
      refine ⟨?_, ?_, ?_, ?_⟩
      · intro e he
        rw [entriesAt, hlk, Option.getD_some, hgk] at he
        simp at he
      · intro _
        rw [hlk, Option.getD_some]
        exact hgk
      · intro _ hone
        exfalso
        apply hge
        cases games with
        | nil => simp at hone
        | cons p rest =>
          cases rest with
          | nil =>
            obtain ⟨k0, v0⟩ := p
            simp only [List.map_cons, List.map_nil] at hone
            have hk0 : k0 = g := by
              simpa using congrArg (fun s => s.headD "") hone
            simp [alist_erase, hk0]
          | cons q rest2 => simp at hone
      · intro hmem
        simp only [get_failed_games_for_division_gender, hlk, Option.getD_some,
          List.mem_map, List.mem_filter] at hmem
        obtain ⟨p, ⟨hpmem, _⟩, hp1⟩ := hmem
        have : p.1 ∈ (alist_erase games g).map Prod.fst :=
          List.mem_map_of_mem Prod.fst hpmem
        rw [hp1] at this
        exact not_mem_keys_alist_erase games g hbw.1 this
  · have hie : (mark_entries entries dv gd true).isEmpty = false := by
      simp [hemp]
    simp only [hie, Bool.false_eq_true, if_false]
    have hie2 : (alist_set games g (mark_entries entries dv gd true)).isEmpty = false := by
      simp [alist_set_ne_nil]
    simp only [hie2, Bool.false_eq_true, if_false]
    have hlk : List.lookup dk
        (alist_set l dk (alist_set games g (mark_entries entries dv gd true)))
        = some (alist_set games g (mark_entries entries dv gd true)) :=
      lookup_alist_set_self l dk _
    have hgk : List.lookup g (alist_set games g (mark_entries entries dv gd true))
        = some (mark_entries entries dv gd true) := lookup_alist_set_self games g _
    refine ⟨?_, ?_, ?_, ?_⟩
    · intro e he
      rw [entriesAt, hlk, Option.getD_some, hgk, Option.getD_some] at he
      exact hnomatch e he
    · intro h
      exact absurd h hemp
    · intro h _
      exact absurd h hemp
    · intro hmem
      simp only [get_failed_games_for_division_gender, hlk, Option.getD_some,
        List.mem_map, List.mem_filter] at hmem
      obtain ⟨p, ⟨hpmem, hpany⟩, hp1⟩ := hmem
      rcases mem_alist_set_of_nodup games g _ p hbw.1 hpmem with h | ⟨_, hne⟩
      · have hanyf : (mark_entries entries dv gd true).any
            (fun e => entryKeyMatches e dv gd) = false := by
          rw [List.any_eq_false]
          intro x hx
          rw [hnomatch x hx]
          simp
        rw [h] at hpany
        simp only at hpany
        rw [hanyf] at hpany
        exact Bool.false_ne_true hpany
      · exact hne hp1

/-- Witness for C3 at a concrete ledger holding one record for the key. -/
theorem mark_retried_success_removes_record_witness :
    "g1" ∉ get_failed_games_for_division_gender
        (mark_core [("2025-01-12", [("g1", [⟨"d1", "men", "timeout", "", some 1⟩])])]
          "g1" "2025-01-12" "d1" "men" true)
        "2025-01-12" "d1" "men" :=
  (mark_retried_success_removes_record
      [("2025-01-12", [("g1", [⟨"d1", "men", "timeout", "", some 1⟩])])]
      "g1" "2025-01-12" "d1" "men" (by decide) (by decide)).2.2.2

/-! Merge lemmas. -/

theorem contains_eq_true_iff_mem {α : Type} [BEq α] [LawfulBEq α] {l : List α} {x : α} :
    l.contains x = true ↔ x ∈ l := by
  simp [List.contains_iff_exists_mem_beq]

theorem filter_not_contains_self (rows : List Row) (c : String) :
    rows.filter
      (fun r => !((rows.map (fun s => getCell s c)).contains (getCell r c))) = [] := by
  rw [List.filter_eq_nil_iff]
  intro r hr
  have hmem : getCell r c ∈ rows.map (fun s => getCell s c) :=
    List.mem_map_of_mem _ hr
  rw [contains_eq_true_iff_mem.mpr hmem]
  simp

theorem filterNewRows_gameid (e n : Table)
    (hge : e.cols.contains "GAMEID" = true) (hgn : n.cols.contains "GAMEID" = true) :
    filterNewRows e n
      = n.rows.filter
          (fun r => !((e.rows.map (fun s => getCell s "GAMEID")).contains
            (getCell r "GAMEID"))) := by
  unfold filterNewRows
  rw [if_pos hgn, if_pos hge]

theorem merge_rows_eq (e n : Table) (hnn : n.rows ≠ []) :
    (merge_csv_files (.table e) (.table n)).map Table.rows
      = some (e.rows ++ filterNewRows e n) := by
  have hni : n.rows.isEmpty = false := by simp [hnn]
  simp only [merge_csv_files, read_csv_safely, hni, Bool.false_eq_true, if_false]
  by_cases hf : (filterNewRows e n).isEmpty = true
  · rw [if_pos hf]
    have hfe : filterNewRows e n = [] := by simpa using hf
    simp [hfe]
  · rw [if_neg hf]
    simp

theorem unionCols_idem (a b : List String) :
    unionCols a (unionCols a b) = unionCols a b := by
  unfold unionCols
  rw [List.filter_append]
  have h1 : a.filter (fun c => !(a.contains c)) = [] := by
    rw [List.filter_eq_nil_iff]
    intro c hc
    rw [contains_eq_true_iff_mem.mpr hc]
    simp
  have h2 : (b.filter (fun c => !(a.contains c))).filter (fun c => !(a.contains c))
      = b.filter (fun c => !(a.contains c)) :=
    List.filter_eq_self.mpr (fun c hc => (List.mem_filter.mp hc).2)
  rw [h1, h2]
  simp

theorem merge_absorb_left (A : Table) (hA : A.cols.contains "GAMEID" = true) :
    merge_csv_files (.table A) (.table A) = some A := by
  simp only [merge_csv_files, read_csv_safely]
  by_cases he : A.rows.isEmpty = true
  · rw [if_pos he]
  · rw [if_neg he]
    have hf : filterNewRows A A = [] := by
      rw [filterNewRows_gameid A A hA hA]
      exact filter_not_contains_self A.rows "GAMEID"
    simp [hf]

theorem getCell_append_dupflag (r : Row) :
    getCell (r ++ [("DUPLICATE_ACROSS_DIVISIONS", "False")]) "GAMELINK"
      = getCell r "GAMELINK" := by
  unfold getCell
  rw [List.lookup_append]
  have h : List.lookup "GAMELINK" [("DUPLICATE_ACROSS_DIVISIONS", "False")]
      = none := by decide
  rw [h]
  cases List.lookup "GAMELINK" r <;> rfl

/-- C4 counterexample: the existing table lacks GAMEID while the new table
has it; the new table's only row carries a GAMELINK value present in the
existing table, yet merge keeps that row — the filter runs on GAMEID against
an empty existing set, and no GAMELINK fallback happens. -/
theorem merge_fallback_counterexample :
    "GAMEID" ∉ (Table.mk ["GAMELINK"] [[("GAMELINK", "L1")]]).cols
    ∧ getCell [("GAMEID", "X"), ("GAMELINK", "L1")] "GAMELINK"
        ∈ (Table.mk ["GAMELINK"] [[("GAMELINK", "L1")]]).rows.map
            (fun r => getCell r "GAMELINK")
    ∧ (merge_csv_files
          (.table (Table.mk ["GAMELINK"] [[("GAMELINK", "L1")]]))
          (.table (Table.mk ["GAMEID", "GAMELINK"]
            [[("GAMEID", "X"), ("GAMELINK", "L1")]]))).map Table.rows
        = some [[("GAMELINK", "L1")], [("GAMEID", "X"), ("GAMELINK", "L1")]] := by
  decide

/-- C4 as amended: the duplicate filter's fallback is keyed on the new
table's columns only.  When the new table lacks GAMEID but has GAMELINK, its
rows whose GAMELINK value appears in the existing table's GAMELINK column
(an empty set when the existing table lacks that column) are excluded; when
the new table lacks both columns, every row is kept; and when the new table
has GAMEID but the existing table lacks it, the GAMEID filter runs against an
empty set and keeps every row — no GAMELINK fallback occurs. -/
theorem merge_fallback_on_new_columns (e n : Table) :
    (n.cols.contains "GAMEID" = false → n.cols.contains "GAMELINK" = true →
      n.rows ≠ [] →
      (merge_csv_files (.table e) (.table n)).map Table.rows
        = some (e.rows ++ n.rows.filter (fun r =>
            !((if e.cols.contains "GAMELINK"
                then e.rows.map (fun s => getCell s "GAMELINK") else []).contains
              (getCell r "GAMELINK")))))
    ∧ (n.cols.contains "GAMEID" = false → n.cols.contains "GAMELINK" = false →
      n.rows ≠ [] →
      (merge_csv_files (.table e) (.table n)).map Table.rows
        = some (e.rows ++ n.rows))
    ∧ (n.cols.contains "GAMEID" = true → e.cols.contains "GAMEID" = false →
      n.rows ≠ [] →
      (merge_csv_files (.table e) (.table n)).map Table.rows
        = some (e.rows ++ n.rows)) := by
  refine ⟨?_, ?_, ?_⟩
  · intro h1 h2 h3
    rw [merge_rows_eq e n h3]
    unfold filterNewRows
    rw [if_neg (by rw [h1]; exact Bool.false_ne_true), if_pos h2]
  · intro h1 h2 h3
    rw [merge_rows_eq e n h3]
    unfold filterNewRows
    rw [if_neg (by rw [h1]; exact Bool.false_ne_true),
        if_neg (by rw [h2]; exact Bool.false_ne_true)]
  · intro h1 h2 h3
    rw [merge_rows_eq e n h3]
    unfold filterNewRows
    rw [if_pos h1, if_neg (by rw [h2]; exact Bool.false_ne_true)]
    simp

/-- Witness for C4 at a concrete pair where the new table lacks GAMEID and
the GAMELINK fallback filters out the shared link. -/
theorem merge_fallback_on_new_columns_witness :
    (merge_csv_files
        (.table (Table.mk ["GAMELINK"] [[("GAMELINK", "L1")]]))
        (.table (Table.mk ["GAMELINK"]
          [[("GAMELINK", "L1")], [("GAMELINK", "L2")]]))).map Table.rows
      = some [[("GAMELINK", "L1")], [("GAMELINK", "L2")]] := by
  have h := (merge_fallback_on_new_columns
      (Table.mk ["GAMELINK"] [[("GAMELINK", "L1")]])
      (Table.mk ["GAMELINK"] [[("GAMELINK", "L1")], [("GAMELINK", "L2")]])).1
    (by decide) (by decide) (by decide)
  exact h.trans (by decide)

/-- C5: when both tables have the GAMEID column, are non-empty, and each has
unique GAMEID values, merge writes the existing rows followed by exactly the
new rows whose GAMEID value is absent from the existing table's GAMEID value
set, preserving row order within each source. -/
theorem merge_dedup_by_gameid (e n : Table)
    (hge : e.cols.contains "GAMEID" = true) (hgn : n.cols.contains "GAMEID" = true)
    (hne : e.rows ≠ []) (hnn : n.rows ≠ [])
    (hue : (e.rows.map (fun r => getCell r "GAMEID")).Nodup)
    (hun : (n.rows.map (fun r => getCell r "GAMEID")).Nodup) :
    (merge_csv_files (.table e) (.table n)).map Table.rows
      = some (e.rows ++ n.rows.filter (fun r =>
          !((e.rows.map (fun s => getCell s "GAMEID")).contains
            (getCell r "GAMEID")))) := by
  rw [merge_rows_eq e n hnn, filterNewRows_gameid e n hge hgn]

/-- Witness for C5: the spec scenario with GAMEID sets A,B and B,C; the
output holds A, B, C once each, B's row coming from the existing table. -/
theorem merge_dedup_by_gameid_witness :
    (merge_csv_files
        (.table (Table.mk ["GAMEID", "TEAM"]
          [[("GAMEID", "A"), ("TEAM", "t1")], [("GAMEID", "B"), ("TEAM", "t2")]]))
        (.table (Table.mk ["GAMEID", "TEAM"]
          [[("GAMEID", "B"), ("TEAM", "t3")], [("GAMEID", "C"), ("TEAM", "t4")]]))).map
        Table.rows
      = some [[("GAMEID", "A"), ("TEAM", "t1")], [("GAMEID", "B"), ("TEAM", "t2")],
              [("GAMEID", "C"), ("TEAM", "t4")]] := by
  have h := merge_dedup_by_gameid
    (Table.mk ["GAMEID", "TEAM"]
      [[("GAMEID", "A"), ("TEAM", "t1")], [("GAMEID", "B"), ("TEAM", "t2")]])
    (Table.mk ["GAMEID", "TEAM"]
      [[("GAMEID", "B"), ("TEAM", "t3")], [("GAMEID", "C"), ("TEAM", "t4")]])
    (by decide) (by decide) (by decide) (by decide) (by decide) (by decide)
  exact h.trans (by decide)

/-- C6: merging A with the output of a previous merge of A and B reproduces
that output exactly, when both A and B carry the identity column — the second
merge contributes no new rows. -/
theorem merge_idempotent_on_output (A B M : Table)
    (hA : A.cols.contains "GAMEID" = true) (hB : B.cols.contains "GAMEID" = true)
    (hM : merge_csv_files (.table A) (.table B) = some M) :
    merge_csv_files (.table A) (.table M) = some M := by
  by_cases hBe : B.rows.isEmpty = true
  · have hMA : M = A := by
      simp only [merge_csv_files, read_csv_safely, if_pos hBe,
        Option.some.injEq] at hM
      exact hM.symm
    subst hMA
    exact merge_absorb_left M hA
  · by_cases hf : (filterNewRows A B).isEmpty = true
    · have hMA : M = A := by
        simp only [merge_csv_files, read_csv_safely, if_neg hBe] at hM
        rw [if_pos hf] at hM
        exact (Option.some_inj.mp hM).symm
      subst hMA
      exact merge_absorb_left M hA
    · have hMdef : M = ⟨unionCols A.cols B.cols, A.rows ++ filterNewRows A B⟩ := by
        simp only [merge_csv_files, read_csv_safely, if_neg hBe] at hM
        rw [if_neg hf] at hM
        exact (Option.some_inj.mp hM).symm
      have hfne : filterNewRows A B ≠ [] := by
        intro hh
        exact hf (by simp [hh])
      have hMcols : M.cols = unionCols A.cols B.cols := by rw [hMdef]
      have hMrows : M.rows = A.rows ++ filterNewRows A B := by rw [hMdef]
      have hMg : M.cols.contains "GAMEID" = true := by
        rw [hMcols]
        exact contains_eq_true_iff_mem.mpr
          (List.mem_append_left _ (contains_eq_true_iff_mem.mp hA))
      have hMrne : M.rows ≠ [] := by
        rw [hMrows]
        simp [hfne]
      have hfM : filterNewRows A M = filterNewRows A B := by
        rw [filterNewRows_gameid A M hA hMg, hMrows, List.filter_append,
          filter_not_contains_self A.rows "GAMEID",
          filterNewRows_gameid A B hA hB]
        have h2 : ((B.rows.filter (fun r =>
              !((A.rows.map (fun s => getCell s "GAMEID")).contains
                (getCell r "GAMEID")))).filter (fun r =>
              !((A.rows.map (fun s => getCell s "GAMEID")).contains
                (getCell r "GAMEID"))))
            = B.rows.filter (fun r =>
              !((A.rows.map (fun s => getCell s "GAMEID")).contains
                (getCell r "GAMEID"))) :=
          List.filter_eq_self.mpr (fun r hr => (List.mem_filter.mp hr).2)
        rw [h2]
        simp
      have hMe : M.rows.isEmpty = false := by simp [hMrne]
      simp only [merge_csv_files, read_csv_safely, hMe, Bool.false_eq_true, if_false]
      rw [if_neg (by rw [hfM]; simp [hfne])]
      rw [hfM, hMcols, unionCols_idem, hMdef]

/-- Witness for C6 at a concrete pair of tables with overlapping GAMEID
values. -/
theorem merge_idempotent_on_output_witness :
    merge_csv_files
        (.table (Table.mk ["GAMEID"] [[("GAMEID", "A")], [("GAMEID", "B")]]))
        (.table (Table.mk ["GAMEID"] [[("GAMEID", "A")], [("GAMEID", "B")],
          [("GAMEID", "C")]]))
      = some (Table.mk ["GAMEID"]
          [[("GAMEID", "A")], [("GAMEID", "B")], [("GAMEID", "C")]]) :=
  merge_idempotent_on_output
    (Table.mk ["GAMEID"] [[("GAMEID", "A")], [("GAMEID", "B")]])
    (Table.mk ["GAMEID"] [[("GAMEID", "B")], [("GAMEID", "C")]])
    (Table.mk ["GAMEID"] [[("GAMEID", "A")], [("GAMEID", "B")], [("GAMEID", "C")]])
    (by decide) (by decide) (by decide)

/-- C10: update_duplicate_flag returns false with the file unchanged when the
table is missing, unreadable, or lacks the GAMELINK column; on a readable
table with GAMELINK none of whose rows match the game link, it returns true,
adds the DUPLICATE_ACROSS_DIVISIONS column with value False to every row when
that column was absent, and leaves all other columns and rows unchanged. -/
theorem update_duplicate_flag_frame :
    (∀ (f : CsvFile) (link : String) (dup : Bool),
        read_csv_safely f = none → update_duplicate_flag f link dup = (false, f))
    ∧ (∀ (t : Table) (link : String) (dup : Bool),
        t.cols.contains "GAMELINK" = false →
        update_duplicate_flag (.table t) link dup = (false, .table t))
    ∧ (∀ (t : Table) (link : String) (dup : Bool),
        t.cols.contains "GAMELINK" = true →
        (∀ r ∈ t.rows, getCell r "GAMELINK" ≠ some link) →
        update_duplicate_flag (.table t) link dup
          = (true, .table
              ⟨(if t.cols.contains "DUPLICATE_ACROSS_DIVISIONS" then t.cols
                else t.cols ++ ["DUPLICATE_ACROSS_DIVISIONS"]),
               (if t.cols.contains "DUPLICATE_ACROSS_DIVISIONS" then t.rows
                else t.rows.map
                  (fun r => r ++ [("DUPLICATE_ACROSS_DIVISIONS", "False")]))⟩)) := by
  refine ⟨?_, ?_, ?_⟩
  · intro f link dup h
    cases f with
    | missing => rfl
    | unreadable => rfl
    | table t => simp [read_csv_safely] at h
  · intro t link dup h
    simp only [update_duplicate_flag]
    rw [if_neg (by rw [h]; exact Bool.false_ne_true)]
  · intro t link dup h1 h2
    have hmap : ∀ (rows : List Row), (∀ r ∈ rows, getCell r "GAMELINK" ≠ some link) →
        rows.map (fun r => if getCell r "GAMELINK" == some link
          then alist_set r "DUPLICATE_ACROSS_DIVISIONS"
            (if dup then "True" else "False")
          else r) = rows := by
      intro rows hno
      induction rows with
      | nil => rfl
      | cons r rest ih =>
        have hr : (getCell r "GAMELINK" == some link) = false := by
          simp [hno r (List.mem_cons_self _ _)]
        simp only [List.map_cons, hr, Bool.false_eq_true, if_false]
        rw [ih (fun x hx => hno x (List.mem_cons_of_mem _ hx))]
    simp only [update_duplicate_flag]
    rw [if_pos h1]
    by_cases hdup : t.cols.contains "DUPLICATE_ACROSS_DIVISIONS" = true
    · rw [if_pos hdup, if_pos hdup, if_pos hdup]
      rw [hmap t.rows h2]
    · rw [if_neg hdup, if_neg hdup, if_neg hdup]
      rw [hmap (t.rows.map (fun r => r ++ [("DUPLICATE_ACROSS_DIVISIONS", "False")]))
        (by
          intro r1 hr1
          obtain ⟨r, hr, rfl⟩ := List.mem_map.mp hr1
          rw [getCell_append_dupflag r]
          exact h2 r hr)]

/-- Witness for C10 at a concrete table with GAMELINK, no matching row, and
no pre-existing duplicate column. -/
theorem update_duplicate_flag_frame_witness :
    update_duplicate_flag
        (.table (Table.mk ["GAMELINK"] [[("GAMELINK", "L")]])) "Z" true
      = (true, .table (Table.mk ["GAMELINK", "DUPLICATE_ACROSS_DIVISIONS"]
          [[("GAMELINK", "L"), ("DUPLICATE_ACROSS_DIVISIONS", "False")]])) := by
  have h := update_duplicate_flag_frame.2.2
    (Table.mk ["GAMELINK"] [[("GAMELINK", "L")]]) "Z" true (by decide) (by decide)
  exact h.trans (by decide)

end NCAA
